import Mathlib

/-!
Verification development for the `api-tester` request-forwarding service
(`src/api-tester/src/main.rs`).

The development shallowly embeds the data model and the handler logic of the
service: JSON values (`serde_json::Value`, with numbers restricted to the
integral case), the cache-key fingerprint `generate_cache_key`, the `/proxy`
handler with its cache, gauge, timeout and decode-failure behaviour, the
`/ws` relay with its send and listen phases, and the `/graphql` adapter.
Network effects are supplied as explicit oracles (`UpstreamBehavior`,
`WsEnv`): each constructor records one possible behaviour of the remote
endpoint, and the embedded handlers consume it exactly where the Rust code
awaits the corresponding future.
-/

namespace ApiTester

/-- JSON values, mirroring `serde_json::Value` as used by the service.
Numbers are modelled as integers (the claims under study involve no
floating-point payloads); objects carry their fields in serialization
order. -/
inductive Json where
  | null : Json
  | bool (b : Bool) : Json
  | num (n : Int) : Json
  | str (s : String) : Json
  | arr (elems : List Json) : Json
  | obj (fields : List (String × Json)) : Json
deriving Repr

/-- Structural induction for `Json` with membership hypotheses for the
nested lists. -/
def Json.inductionOn {P : Json → Prop}
    (hnull : P .null)
    (hbool : ∀ b, P (.bool b))
    (hnum : ∀ n, P (.num n))
    (hstr : ∀ s, P (.str s))
    (harr : ∀ xs, (∀ x ∈ xs, P x) → P (.arr xs))
    (hobj : ∀ fs, (∀ p ∈ fs, P p.2) → P (.obj fs)) :
    ∀ j, P j
  | .null => hnull
  | .bool b => hbool b
  | .num n => hnum n
  | .str s => hstr s
  | .arr xs => harr xs (fun x hx =>
      Json.inductionOn hnull hbool hnum hstr harr hobj x)
  | .obj fs => hobj fs (fun p hp =>
      Json.inductionOn hnull hbool hnum hstr harr hobj p.2)
termination_by j => sizeOf j
decreasing_by
  · have := List.sizeOf_lt_of_mem hx
    simp only [Json.arr.sizeOf_spec]
    omega
  · have h1 := List.sizeOf_lt_of_mem hp
    have h2 : sizeOf p.2 < sizeOf p := by
      obtain ⟨a, b⟩ := p
      simp only [Prod.mk.sizeOf_spec]
      omega
    simp only [Json.obj.sizeOf_spec]
    omega

mutual

/-- Boolean structural equality of JSON values. -/
def jsonBeq : Json → Json → Bool
  | .null, .null => true
  | .bool x, .bool y => x == y
  | .num x, .num y => x == y
  | .str x, .str y => x == y
  | .arr xs, .arr ys => jsonListBeq xs ys
  | .obj fs, .obj gs => jsonFieldsBeq fs gs
  | _, _ => false

/-- Boolean equality of JSON element lists. -/
def jsonListBeq : List Json → List Json → Bool
  | x :: xs, y :: ys => jsonBeq x y && jsonListBeq xs ys
  | [], [] => true
  | _, _ => false

/-- Boolean equality of JSON field lists. -/
def jsonFieldsBeq : List (String × Json) → List (String × Json) → Bool
  | (k, v) :: fs, (l, w) :: gs => k == l && jsonBeq v w && jsonFieldsBeq fs gs
  | [], [] => true
  | _, _ => false

end

theorem jsonListBeq_iff (xs : List Json)
    (ih : ∀ x ∈ xs, ∀ b, jsonBeq x b = true ↔ x = b) :
    ∀ ys, jsonListBeq xs ys = true ↔ xs = ys := by
  induction xs with
  | nil => intro ys; cases ys <;> simp [jsonListBeq]
  | cons x xs ihx =>
    intro ys
    cases ys with
    | nil => simp [jsonListBeq]
    | cons y ys =>
      have hx := ih x (by simp)
      have hrest := ihx (fun z hz b => ih z (by simp [hz]) b) ys
      simp [jsonListBeq, Bool.and_eq_true, hx, hrest]

theorem jsonFieldsBeq_iff (fs : List (String × Json))
    (ih : ∀ p ∈ fs, ∀ b, jsonBeq p.2 b = true ↔ p.2 = b) :
    ∀ gs, jsonFieldsBeq fs gs = true ↔ fs = gs := by
  induction fs with
  | nil => intro gs; cases gs <;> simp [jsonFieldsBeq]
  | cons f fs ihf =>
    intro gs
    obtain ⟨k, v⟩ := f
    cases gs with
    | nil => simp [jsonFieldsBeq]
    | cons g gs =>
      obtain ⟨l, w⟩ := g
      have hv := ih (k, v) (by simp)
      have hrest := ihf (fun p hp b => ih p (by simp [hp]) b) gs
      simp [jsonFieldsBeq, Bool.and_eq_true, hv w, hrest,
        Prod.ext_iff, and_assoc]

theorem jsonBeq_iff : ∀ a b : Json, jsonBeq a b = true ↔ a = b := by
  intro a
  induction a using Json.inductionOn with
  | hnull => intro b; cases b <;> simp [jsonBeq]
  | hbool x => intro b; cases b <;> simp [jsonBeq]
  | hnum x => intro b; cases b <;> simp [jsonBeq]
  | hstr x => intro b; cases b <;> simp [jsonBeq]
  | harr xs ih =>
    intro b
    cases b <;> simp [jsonBeq]
    exact jsonListBeq_iff xs ih _
  | hobj fs ih =>
    intro b
    cases b <;> simp [jsonBeq]
    exact jsonFieldsBeq_iff fs ih _

instance : DecidableEq Json := fun a b =>
  decidable_of_iff (jsonBeq a b = true) (jsonBeq_iff a b)

/-- Decimal digit character for `d < 10` (`0 ↦ '0'`, …, `9 ↦ '9'`). -/
def digitChar10 (d : Nat) : Char :=
  match d with
  | 0 => '0' | 1 => '1' | 2 => '2' | 3 => '3' | 4 => '4'
  | 5 => '5' | 6 => '6' | 7 => '7' | 8 => '8' | _ => '9'

/-- Decimal rendering of a natural number, most significant digit first,
no leading zeros (`0` renders as `"0"`), as `serde_json` renders
non-negative integers. -/
def natDigits (n : Nat) : List Char :=
  if h : n < 10 then [digitChar10 n]
  else natDigits (n / 10) ++ [digitChar10 (n % 10)]
termination_by n
decreasing_by
  exact Nat.div_lt_self (by omega) (by omega)

/-- Decimal rendering of an integer, as `serde_json` renders integers. -/
def intChars (n : Int) : List Char :=
  if n < 0 then '-' :: natDigits n.natAbs else natDigits n.toNat

/-- The JSON string escape used by `serde_json` for one character:
quote, backslash and the short control escapes become two-character
sequences, every other character stands for itself.  (The `\u00XX`
long form for the remaining control characters is immaterial here and
is not modelled.) -/
def escapeChar (c : Char) : List Char :=
  if c = '"' then ['\\', '"']
  else if c = '\\' then ['\\', '\\']
  else if c = '\x08' then ['\\', 'b']
  else if c = '\x0c' then ['\\', 'f']
  else if c = '\n' then ['\\', 'n']
  else if c = '\r' then ['\\', 'r']
  else if c = '\t' then ['\\', 't']
  else [c]

/-- Escape a character list as the body of a JSON string literal. -/
def escapeChars (cs : List Char) : List Char :=
  cs.flatMap escapeChar

/-- A JSON string literal: opening quote, escaped body, closing quote. -/
def strChars (s : String) : List Char :=
  '"' :: escapeChars s.data ++ ['"']

/-- Characters of the JSON text `null`. -/
def nullTextChars : List Char := ['n', 'u', 'l', 'l']

/-- Characters of the JSON text `true`. -/
def trueTextChars : List Char := ['t', 'r', 'u', 'e']

/-- Characters of the JSON text `false`. -/
def falseTextChars : List Char := ['f', 'a', 'l', 's', 'e']

mutual

/-- Compact serialization of a JSON value, character by character, as
produced by `serde_json::to_string`. -/
def serJson : Json → List Char
  | .null => nullTextChars
  | .bool b => if b then trueTextChars else falseTextChars
  | .num n => intChars n
  | .str s => strChars s
  | .arr xs => '[' :: serJsonList xs ++ [']']
  | .obj fs => '\x7b' :: serJsonFields fs ++ ['\x7d']

/-- Comma-separated serialization of array elements. -/
def serJsonList : List Json → List Char
  | [] => []
  | [x] => serJson x
  | x :: y :: rest => serJson x ++ ',' :: serJsonList (y :: rest)

/-- Comma-separated serialization of object fields (`"key":value`). -/
def serJsonFields : List (String × Json) → List Char
  | [] => []
  | [(k, v)] => strChars k ++ ':' :: serJson v
  | (k, v) :: f :: rest => (strChars k ++ ':' :: serJson v) ++ ',' :: serJsonFields (f :: rest)

end

/-! ### A reference parser, used only to prove the serializer injective -/

/-- Numeric value of a decimal digit character. -/
def digitVal (c : Char) : Nat := c.toNat - 48

/-- Value of a most-significant-first decimal digit string. -/
def digitsVal (cs : List Char) : Nat :=
  cs.foldl (fun a c => a * 10 + digitVal c) 0

/-- Longest digit run at the head of the input, together with the rest. -/
def scanDigits : List Char → List Char × List Char
  | [] => ([], [])
  | c :: rest =>
    if c.isDigit then
      let p := scanDigits rest
      (c :: p.1, p.2)
    else ([], c :: rest)

/-- Inverse of `escapeChar` on the character following a backslash. -/
def unescapeChar (c : Char) : Option Char :=
  if c = '"' then some '"'
  else if c = '\\' then some '\\'
  else if c = 'b' then some '\x08'
  else if c = 'f' then some '\x0c'
  else if c = 'n' then some '\n'
  else if c = 'r' then some '\r'
  else if c = 't' then some '\t'
  else none

/-- Parse the body of a JSON string literal up to and including the closing
quote, undoing `escapeChar`. -/
def parseStringBody : List Char → Option (List Char × List Char)
  | [] => none
  | c :: rest =>
    if c = '"' then some ([], rest)
    else if c = '\\' then
      match rest with
      | [] => none
      | e :: rest2 =>
        match unescapeChar e with
        | none => none
        | some c2 => (parseStringBody rest2).map (fun p => (c2 :: p.1, p.2))
    else (parseStringBody rest).map (fun p => (c :: p.1, p.2))

/-- Parse a negative number body (the digits after a leading minus sign). -/
def parseNeg (rest : List Char) : Option (Json × List Char) :=
  match scanDigits rest with
  | ([], _) => none
  | (ds, r) => some (.num (-(Int.ofNat (digitsVal ds))), r)

/-- Parse the tail of the literal `null`. -/
def parseNullTail : List Char → Option (Json × List Char)
  | 'u' :: 'l' :: 'l' :: r => some (.null, r)
  | _ => none

/-- Parse the tail of the literal `true`. -/
def parseTrueTail : List Char → Option (Json × List Char)
  | 'r' :: 'u' :: 'e' :: r => some (.bool true, r)
  | _ => none

/-- Parse the tail of the literal `false`. -/
def parseFalseTail : List Char → Option (Json × List Char)
  | 'a' :: 'l' :: 's' :: 'e' :: r => some (.bool false, r)
  | _ => none

mutual

/-- Fuel-bounded parser for the serialized form produced by `serJson`. -/
def parseJson : Nat → List Char → Option (Json × List Char)
  | 0, _ => none
  | _ + 1, [] => none
  | fuel + 1, c :: rest =>
    if c.isDigit then
      let p := scanDigits (c :: rest)
      some (.num (Int.ofNat (digitsVal p.1)), p.2)
    else if c = '-' then parseNeg rest
    else if c = '"' then
      (parseStringBody rest).map (fun p => (.str (String.mk p.1), p.2))
    else if c = 'n' then parseNullTail rest
    else if c = 't' then parseTrueTail rest
    else if c = 'f' then parseFalseTail rest
    else if c = '[' then
      match rest with
      | ']' :: r => some (.arr [], r)
      | _ => (parseJsonList fuel rest).map (fun p => (.arr p.1, p.2))
    else if c = '\x7b' then
      match rest with
      | '\x7d' :: r => some (.obj [], r)
      | _ => (parseJsonFields fuel rest).map (fun p => (.obj p.1, p.2))
    else none

/-- Parse one or more comma-separated values followed by a closing `]`. -/
def parseJsonList : Nat → List Char → Option (List Json × List Char)
  | 0, _ => none
  | fuel + 1, cs =>
    (parseJson fuel cs).bind (fun v =>
      match v.2 with
      | ',' :: r2 => (parseJsonList fuel r2).map (fun p => (v.1 :: p.1, p.2))
      | ']' :: r2 => some ([v.1], r2)
      | _ => none)

/-- Parse one or more comma-separated `"key":value` fields followed by a
closing brace. -/
def parseJsonFields : Nat → List Char → Option (List (String × Json) × List Char)
  | 0, _ => none
  | fuel + 1, cs =>
    match cs with
    | '"' :: cs2 =>
      (parseStringBody cs2).bind (fun k =>
        match k.2 with
        | ':' :: r2 =>
          (parseJson fuel r2).bind (fun v =>
            match v.2 with
            | ',' :: r4 => (parseJsonFields fuel r4).map
                (fun p => ((String.mk k.1, v.1) :: p.1, p.2))
            | '\x7d' :: r4 => some ([(String.mk k.1, v.1)], r4)
            | _ => none)
        | _ => none)
    | _ => none

end

/-- The rest of the input after a serialized value must not begin with a
digit (otherwise a serialized number would absorb it). -/
def headNotDigit : List Char → Prop
  | [] => True
  | c :: _ => c.isDigit = false

theorem headNotDigit_nil : headNotDigit [] := trivial

theorem headNotDigit_cons {c : Char} (r : List Char) (h : c.isDigit = false) :
    headNotDigit (c :: r) := h

set_option maxHeartbeats 1000000 in
/-- One-step unfolding of `parseJson` at positive fuel on a nonempty input. -/
theorem parseJson_succ_cons (fuel : Nat) (c : Char) (rest : List Char) :
    parseJson (fuel + 1) (c :: rest) =
      (if c.isDigit then
        let p := scanDigits (c :: rest)
        some (.num (Int.ofNat (digitsVal p.1)), p.2)
      else if c = '-' then parseNeg rest
      else if c = '"' then
        (parseStringBody rest).map (fun p => (.str (String.mk p.1), p.2))
      else if c = 'n' then parseNullTail rest
      else if c = 't' then parseTrueTail rest
      else if c = 'f' then parseFalseTail rest
      else if c = '[' then
        match rest with
        | ']' :: r => some (.arr [], r)
        | _ => (parseJsonList fuel rest).map (fun p => (.arr p.1, p.2))
      else if c = '\x7b' then
        match rest with
        | '\x7d' :: r => some (.obj [], r)
        | _ => (parseJsonFields fuel rest).map (fun p => (.obj p.1, p.2))
      else none) := by
  rw [parseJson.eq_def]

/-- One-step unfolding of `parseJsonList` at positive fuel. -/
theorem parseJsonList_succ (fuel : Nat) (cs : List Char) :
    parseJsonList (fuel + 1) cs =
      (parseJson fuel cs).bind (fun v =>
        match v.2 with
        | ',' :: r2 => (parseJsonList fuel r2).map (fun p => (v.1 :: p.1, p.2))
        | ']' :: r2 => some ([v.1], r2)
        | _ => none) := by
  rw [parseJsonList.eq_def]

/-- One-step unfolding of `parseJsonFields` at positive fuel. -/
theorem parseJsonFields_succ (fuel : Nat) (cs : List Char) :
    parseJsonFields (fuel + 1) cs =
      (match cs with
      | '"' :: cs2 =>
        (parseStringBody cs2).bind (fun k =>
          match k.2 with
          | ':' :: r2 =>
            (parseJson fuel r2).bind (fun v =>
              match v.2 with
              | ',' :: r4 => (parseJsonFields fuel r4).map
                  (fun p => ((String.mk k.1, v.1) :: p.1, p.2))
              | '\x7d' :: r4 => some ([(String.mk k.1, v.1)], r4)
              | _ => none)
          | _ => none)
      | _ => none) := by
  rw [parseJsonFields.eq_def]

/-- Unfolding of `parseJsonFields` on an input that starts with a quote. -/
theorem parseJsonFields_succ_quote (fuel : Nat) (cs2 : List Char) :
    parseJsonFields (fuel + 1) ('"' :: cs2) =
      (parseStringBody cs2).bind (fun k =>
        match k.2 with
        | ':' :: r2 =>
          (parseJson fuel r2).bind (fun v =>
            match v.2 with
            | ',' :: r4 => (parseJsonFields fuel r4).map
                (fun p => ((String.mk k.1, v.1) :: p.1, p.2))
            | '\x7d' :: r4 => some ([(String.mk k.1, v.1)], r4)
            | _ => none)
        | _ => none) := by
  rw [parseJsonFields_succ]
  split
  · rename_i cs2' heq
    injection heq with h1 h2
    subst h2
    rfl
  · rename_i hno
    exact (hno cs2 rfl).elim

theorem serJson_null : serJson .null = ['n', 'u', 'l', 'l'] := by
  rw [serJson.eq_def]
  rfl

theorem serJson_bool (b : Bool) :
    serJson (.bool b) = if b then ['t', 'r', 'u', 'e'] else ['f', 'a', 'l', 's', 'e'] := by
  cases b <;> rw [serJson.eq_def] <;> rfl

theorem serJson_num (n : Int) : serJson (.num n) = intChars n := by
  rw [serJson.eq_def]

theorem serJson_str (s : String) : serJson (.str s) = strChars s := by
  rw [serJson.eq_def]

theorem serJson_arr (xs : List Json) :
    serJson (.arr xs) = '[' :: serJsonList xs ++ [']'] := by
  rw [serJson.eq_def]

theorem serJson_obj (fs : List (String × Json)) :
    serJson (.obj fs) = '\x7b' :: serJsonFields fs ++ ['\x7d'] := by
  rw [serJson.eq_def]

theorem serJsonList_nil : serJsonList [] = [] := by
  rw [serJsonList.eq_def]

theorem serJsonList_one (x : Json) : serJsonList [x] = serJson x := by
  rw [serJsonList.eq_def]

theorem serJsonList_cons₂ (x y : Json) (rest : List Json) :
    serJsonList (x :: y :: rest) = serJson x ++ ',' :: serJsonList (y :: rest) := by
  rw [serJsonList.eq_def]

theorem serJsonFields_nil : serJsonFields [] = [] := by
  rw [serJsonFields.eq_def]

theorem serJsonFields_one (k : String) (v : Json) :
    serJsonFields [(k, v)] = strChars k ++ ':' :: serJson v := by
  rw [serJsonFields.eq_def]

theorem serJsonFields_cons₂ (k : String) (v : Json) (f : String × Json)
    (rest : List (String × Json)) :
    serJsonFields ((k, v) :: f :: rest) =
      (strChars k ++ ':' :: serJson v) ++ ',' :: serJsonFields (f :: rest) := by
  rw [serJsonFields.eq_def]

theorem digitChar10_isDigit {d : Nat} (h : d < 10) :
    (digitChar10 d).isDigit = true := by
  interval_cases d <;> decide

theorem digitVal_digitChar10 {d : Nat} (h : d < 10) :
    digitVal (digitChar10 d) = d := by
  interval_cases d <;> decide

theorem digitsVal_append (xs : List Char) (c : Char) :
    digitsVal (xs ++ [c]) = digitsVal xs * 10 + digitVal c := by
  simp [digitsVal, List.foldl_append]

theorem natDigits_props (n : Nat) :
    digitsVal (natDigits n) = n ∧ natDigits n ≠ [] ∧
      ∀ c ∈ natDigits n, c.isDigit = true := by
  induction n using Nat.strong_induction_on with
  | _ n ih =>
    rw [natDigits]
    split
    · rename_i hn
      refine ⟨?_, by simp, ?_⟩
      · simp only [digitsVal, List.foldl_cons, List.foldl_nil, Nat.zero_mul,
          Nat.zero_add]
        exact digitVal_digitChar10 hn
      · intro c hc
        simp only [List.mem_singleton] at hc
        subst hc
        exact digitChar10_isDigit (by omega)
    · rename_i hn
      have hlt : n / 10 < n := Nat.div_lt_self (by omega) (by omega)
      obtain ⟨hval, hne, hdig⟩ := ih (n / 10) hlt
      refine ⟨?_, by simp, ?_⟩
      · rw [digitsVal_append, hval, digitVal_digitChar10 (by omega)]
        omega
      · intro c hc
        rcases List.mem_append.mp hc with h | h
        · exact hdig c h
        · simp only [List.mem_singleton] at h
          subst h
          exact digitChar10_isDigit (by omega)

theorem scanDigits_append (ds rest : List Char)
    (hds : ∀ c ∈ ds, c.isDigit = true) (hrest : headNotDigit rest) :
    scanDigits (ds ++ rest) = (ds, rest) := by
  induction ds with
  | nil =>
    cases rest with
    | nil => simp [scanDigits]
    | cons c r =>
      simp only [headNotDigit] at hrest
      simp [scanDigits, hrest]
  | cons d ds ihd =>
    have hd : d.isDigit = true := hds d (by simp)
    have := ihd (fun c hc => hds c (by simp [hc]))
    simp [scanDigits, hd, this]

theorem escapeChar_spec (c : Char) :
    (escapeChar c = [c] ∧ c ≠ '"' ∧ c ≠ '\\') ∨
    (∃ e, escapeChar c = ['\\', e] ∧ unescapeChar e = some c) := by
  by_cases h1 : c = '"'
  · subst h1; exact .inr ⟨'"', by decide, by decide⟩
  by_cases h2 : c = '\\'
  · subst h2; exact .inr ⟨'\\', by decide, by decide⟩
  by_cases h3 : c = '\x08'
  · subst h3; exact .inr ⟨'b', by decide, by decide⟩
  by_cases h4 : c = '\x0c'
  · subst h4; exact .inr ⟨'f', by decide, by decide⟩
  by_cases h5 : c = '\n'
  · subst h5; exact .inr ⟨'n', by decide, by decide⟩
  by_cases h6 : c = '\r'
  · subst h6; exact .inr ⟨'r', by decide, by decide⟩
  by_cases h7 : c = '\t'
  · subst h7; exact .inr ⟨'t', by decide, by decide⟩
  · exact .inl ⟨by simp [escapeChar, h1, h2, h3, h4, h5, h6, h7], h1, h2⟩

theorem parseStringBody_rt (cs rest : List Char) :
    parseStringBody (escapeChars cs ++ '"' :: rest) = some (cs, rest) := by
  induction cs with
  | nil =>
    simp only [escapeChars, List.flatMap_nil, List.nil_append]
    rw [parseStringBody.eq_def]
    simp
  | cons c cs ihc =>
    have hsplit : escapeChars (c :: cs) = escapeChar c ++ escapeChars cs := by
      simp [escapeChars]
    rcases escapeChar_spec c with ⟨hc, hq, hb⟩ | ⟨e, he, hu⟩
    · rw [hsplit, hc]
      rw [List.cons_append, List.nil_append, parseStringBody.eq_def]
      simp [hq, hb, ihc]
    · rw [hsplit, he]
      rw [List.cons_append, List.singleton_append, parseStringBody.eq_def]
      simp [hu, ihc]

/-- Every serialization is nonempty and starts with a character that is
neither `]` nor the closing brace. -/
theorem serJson_head (j : Json) :
    ∃ c t, serJson j = c :: t ∧ c ≠ ']' ∧ c ≠ '\x7d' := by
  cases j with
  | null => exact ⟨'n', _, serJson_null, by decide, by decide⟩
  | bool b =>
    cases b
    · exact ⟨'f', _, by rw [serJson_bool]; rfl, by decide, by decide⟩
    · exact ⟨'t', _, by rw [serJson_bool]; rfl, by decide, by decide⟩
  | num n =>
    rw [serJson_num, intChars]
    split
    · exact ⟨'-', _, rfl, by decide, by decide⟩
    · obtain ⟨_, hne, hdig⟩ := natDigits_props n.toNat
      obtain ⟨d, ds, hds⟩ := List.exists_cons_of_ne_nil hne
      have hd : d.isDigit = true := hdig d (by rw [hds]; simp)
      refine ⟨d, ds, hds, ?_, ?_⟩
      · intro h; rw [h] at hd; exact absurd hd (by decide)
      · intro h; rw [h] at hd; exact absurd hd (by decide)
  | str s => exact ⟨'"', _, serJson_str s, by decide, by decide⟩
  | arr xs => exact ⟨'[', _, serJson_arr xs, by decide, by decide⟩
  | obj fs => exact ⟨'\x7b', _, serJson_obj fs, by decide, by decide⟩

/-- A value parses back from its serialization, leaving any trailing input
that does not begin with a digit untouched. -/
def ParsesBack (j : Json) : Prop :=
  ∀ fuel rest, sizeOf j ≤ fuel → headNotDigit rest →
    parseJson fuel (serJson j ++ rest) = some (j, rest)

/-- The serialization of a nonempty element list starts with the
serialization of its first element. -/
theorem serJsonList_eq_append (x : Json) (xs : List Json) :
    ∃ t, serJsonList (x :: xs) = serJson x ++ t := by
  cases xs with
  | nil => exact ⟨[], by rw [serJsonList_one, List.append_nil]⟩
  | cons y rest => exact ⟨_, serJsonList_cons₂ x y rest⟩

theorem parseJsonList_rt (xs : List Json) (hne : xs ≠ [])
    (ih : ∀ x ∈ xs, ParsesBack x) :
    ∀ fuel rest, sizeOf xs ≤ fuel →
      parseJsonList fuel (serJsonList xs ++ ']' :: rest) = some (xs, rest) := by
  induction xs with
  | nil => exact absurd rfl hne
  | cons x xs ihx =>
    intro fuel rest hfuel
    have hsz : 1 + sizeOf x + sizeOf xs ≤ fuel := by
      simpa [List.cons.sizeOf_spec] using hfuel
    cases fuel with
    | zero => omega
    | succ f =>
      have hx : ParsesBack x := ih x (by simp)
      cases xs with
      | nil =>
        rw [serJsonList_one, parseJsonList_succ]
        rw [hx f (']' :: rest) (by omega) (headNotDigit_cons _ (by decide))]
        rfl
      | cons y rest' =>
        rw [serJsonList_cons₂, List.append_assoc, List.cons_append,
          parseJsonList_succ]
        rw [hx f (',' :: (serJsonList (y :: rest') ++ ']' :: rest))
          (by omega) (headNotDigit_cons _ (by decide))]
        have hrec := ihx (by simp) (fun z hz => ih z (by simp [hz])) f rest
          (by simp [List.cons.sizeOf_spec] at hsz ⊢; omega)
        show ((parseJsonList f (serJsonList (y :: rest') ++ ']' :: rest)).map
          (fun p => (x :: p.1, p.2))) = _
        rw [hrec]
        rfl

theorem parseJsonFields_rt (fs : List (String × Json)) (hne : fs ≠ [])
    (ih : ∀ p ∈ fs, ParsesBack p.2) :
    ∀ fuel rest, sizeOf fs ≤ fuel →
      parseJsonFields fuel (serJsonFields fs ++ '\x7d' :: rest) = some (fs, rest) := by
  induction fs with
  | nil => exact absurd rfl hne
  | cons p fs ihp =>
    intro fuel rest hfuel
    obtain ⟨k, v⟩ := p
    have hsz : 1 + sizeOf k + sizeOf v + sizeOf fs + 1 ≤ fuel := by
      simp [List.cons.sizeOf_spec, Prod.mk.sizeOf_spec] at hfuel
      omega
    cases fuel with
    | zero => omega
    | succ f =>
      have hv : ParsesBack v := ih (k, v) (by simp)
      cases fs with
      | nil =>
        rw [serJsonFields_one, strChars]
        simp only [List.cons_append, List.append_assoc, List.singleton_append, List.nil_append]
        rw [parseJsonFields_succ_quote]
        rw [parseStringBody_rt k.data (':' :: (serJson v ++ '\x7d' :: rest))]
        show (parseJson f (serJson v ++ '\x7d' :: rest)).bind _ = _
        rw [hv f ('\x7d' :: rest) (by omega) (headNotDigit_cons _ (by decide))]
        rfl
      | cons q rest' =>
        rw [serJsonFields_cons₂, strChars]
        simp only [List.cons_append, List.append_assoc, List.singleton_append, List.nil_append]
        rw [parseJsonFields_succ_quote]
        rw [parseStringBody_rt k.data
          (':' :: (serJson v ++ ',' :: (serJsonFields (q :: rest') ++ '\x7d' :: rest)))]
        show (parseJson f (serJson v ++ ',' :: (serJsonFields (q :: rest') ++ '\x7d' :: rest))).bind _ = _
        rw [hv f (',' :: (serJsonFields (q :: rest') ++ '\x7d' :: rest))
          (by omega) (headNotDigit_cons _ (by decide))]
        have hrec := ihp (by simp) (fun z hz => ih z (by simp [hz])) f rest
          (by simp [List.cons.sizeOf_spec] at hsz ⊢; omega)
        show (parseJsonFields f (serJsonFields (q :: rest') ++ '\x7d' :: rest)).map _ = _
        rw [hrec]
        rfl


theorem digitsVal_natDigits (n : Nat) : digitsVal (natDigits n) = n :=
  (natDigits_props n).1

theorem parsesBack : ∀ j, ParsesBack j := by
  intro j
  induction j using Json.inductionOn with
  | hnull =>
    intro fuel rest hfuel hrest
    simp only [Json.null.sizeOf_spec] at hfuel
    cases fuel with
    | zero => omega
    | succ f =>
      rw [serJson_null]
      simp only [List.cons_append, List.nil_append]
      rw [parseJson_succ_cons]
      rfl
  | hbool b =>
    intro fuel rest hfuel hrest
    simp only [Json.bool.sizeOf_spec] at hfuel
    cases fuel with
    | zero => omega
    | succ f =>
      rw [serJson_bool]
      cases b
      · simp only [Bool.false_eq_true, if_false, List.cons_append, List.nil_append]
        rw [parseJson_succ_cons]
        rfl
      · simp only [if_true, List.cons_append, List.nil_append]
        rw [parseJson_succ_cons]
        rfl
  | hnum n =>
    intro fuel rest hfuel hrest
    simp only [Json.num.sizeOf_spec] at hfuel
    cases fuel with
    | zero => omega
    | succ f =>
      rw [serJson_num, intChars]
      by_cases hneg : n < 0
      · rw [if_pos hneg]
        obtain ⟨_, hne, hdig⟩ := natDigits_props n.natAbs
        rw [List.cons_append, parseJson_succ_cons]
        show parseNeg (natDigits n.natAbs ++ rest) =
          some (Json.num n, rest)
        rw [parseNeg, scanDigits_append _ _ hdig hrest]
        obtain ⟨d, ds, hds⟩ := List.exists_cons_of_ne_nil hne
        rw [hds]
        show some (Json.num (-(Int.ofNat (digitsVal (d :: ds)))), rest) =
          some (Json.num n, rest)
        rw [← hds, digitsVal_natDigits]
        have hval : -(Int.ofNat n.natAbs) = n := by
          show -((n.natAbs : Int)) = n
          omega
        rw [hval]
      · rw [if_neg hneg]
        obtain ⟨_, hne, hdig⟩ := natDigits_props n.toNat
        obtain ⟨d, ds, hds⟩ := List.exists_cons_of_ne_nil hne
        have hd : d.isDigit = true := hdig d (by rw [hds]; simp)
        have hform : natDigits n.toNat ++ rest = d :: (ds ++ rest) := by
          rw [hds]; rfl
        rw [hform, parseJson_succ_cons]
        simp only [hd, if_true]
        have hscan : scanDigits (d :: (ds ++ rest)) = (natDigits n.toNat, rest) := by
          rw [← hform]
          exact scanDigits_append _ _ hdig hrest
        simp only [hscan, digitsVal_natDigits]
        have hval : Int.ofNat n.toNat = n := by
          show ((n.toNat : Int)) = n
          omega
        rw [hval]
  | hstr s =>
    intro fuel rest hfuel hrest
    simp only [Json.str.sizeOf_spec] at hfuel
    cases fuel with
    | zero => omega
    | succ f =>
      rw [serJson_str, strChars]
      simp only [List.cons_append, List.append_assoc, List.singleton_append]
      rw [parseJson_succ_cons]
      show (parseStringBody (escapeChars s.data ++ '"' :: rest)).map _ = _
      rw [parseStringBody_rt]
      rfl
  | harr xs ih =>
    intro fuel rest hfuel hrest
    cases fuel with
    | zero =>
      simp only [Json.arr.sizeOf_spec] at hfuel
      omega
    | succ f =>
      rw [serJson_arr]
      simp only [List.cons_append, List.append_assoc, List.singleton_append]
      rw [parseJson_succ_cons]
      cases xs with
      | nil =>
        rw [serJsonList_nil]
        rfl
      | cons x xs' =>
        have hfl : sizeOf (x :: xs') ≤ f := by
          simp only [Json.arr.sizeOf_spec] at hfuel
          omega
        obtain ⟨t, ht⟩ := serJsonList_eq_append x xs'
        obtain ⟨c, t', hct, hc1, _⟩ := serJson_head x
        have hform : serJsonList (x :: xs') ++ ']' :: rest =
            c :: (t' ++ t ++ ']' :: rest) := by
          rw [ht, hct]
          simp [List.append_assoc]
        show (match serJsonList (x :: xs') ++ ']' :: rest with
          | ']' :: r => some (Json.arr [], r)
          | _ => (parseJsonList f (serJsonList (x :: xs') ++ ']' :: rest)).map
              (fun (p : List Json × List Char) => (Json.arr p.1, p.2))) =
          some (Json.arr (x :: xs'), rest)
        rw [hform]
        split
        · rename_i r heq
          injection heq with h1 h2
          exact absurd h1 hc1
        · rw [← hform, parseJsonList_rt (x :: xs') (by simp) ih f rest hfl]
          rfl
  | hobj fs ih =>
    intro fuel rest hfuel hrest
    cases fuel with
    | zero =>
      simp only [Json.obj.sizeOf_spec] at hfuel
      omega
    | succ f =>
      rw [serJson_obj]
      simp only [List.cons_append, List.append_assoc, List.singleton_append]
      rw [parseJson_succ_cons]
      cases fs with
      | nil =>
        rw [serJsonFields_nil]
        rfl
      | cons p fs' =>
        have hfl : sizeOf (p :: fs') ≤ f := by
          simp only [Json.obj.sizeOf_spec] at hfuel
          omega
        obtain ⟨k, v⟩ := p
        have hform : ∃ t, serJsonFields ((k, v) :: fs') ++ '\x7d' :: rest =
            '"' :: t := by
          cases fs' with
          | nil =>
            rw [serJsonFields_one, strChars]
            exact ⟨(escapeChars k.data ++ ['"'] ++ (':' :: serJson v)) ++ '\x7d' :: rest,
              by simp [List.append_assoc]⟩
          | cons q rest' =>
            rw [serJsonFields_cons₂, strChars]
            exact ⟨(escapeChars k.data ++ ['"'] ++ (':' :: serJson v) ++
              (',' :: serJsonFields (q :: rest'))) ++ '\x7d' :: rest,
              by simp [List.append_assoc]⟩
        obtain ⟨t, ht⟩ := hform
        show (match serJsonFields ((k, v) :: fs') ++ '\x7d' :: rest with
          | '\x7d' :: r => some (Json.obj [], r)
          | _ => (parseJsonFields f (serJsonFields ((k, v) :: fs') ++ '\x7d' :: rest)).map
              (fun (p : List (String × Json) × List Char) => (Json.obj p.1, p.2))) =
          some (Json.obj ((k, v) :: fs'), rest)
        rw [ht]
        split
        · rename_i r heq
          injection heq with h1 h2
          exact absurd h1 (by decide)
        · rw [← ht, parseJsonFields_rt ((k, v) :: fs') (by simp) ih f rest hfl]
          rfl

/-- The serializer is injective: two values with the same compact
serialization are equal. -/
theorem serJson_inj {a b : Json} (h : serJson a = serJson b) : a = b := by
  have ha := parsesBack a (max (sizeOf a) (sizeOf b)) []
    (le_max_left _ _) headNotDigit_nil
  have hb := parsesBack b (max (sizeOf a) (sizeOf b)) []
    (le_max_right _ _) headNotDigit_nil
  rw [List.append_nil] at ha hb
  rw [h, hb] at ha
  exact ((Prod.mk.injEq _ _ _ _ ▸ Option.some.inj ha).1).symm

/-! ### The data model and handlers of `main.rs` -/

/-- Constant `CACHE_MAX_CAPACITY` (main.rs line 44). -/
def CACHE_MAX_CAPACITY : Nat := 1000

/-- Constant `CACHE_TIME_TO_LIVE` in seconds (main.rs line 45). -/
def CACHE_TIME_TO_LIVE_SECS : Nat := 300

/-- Constant `REQUEST_TIMEOUT` in milliseconds (main.rs line 46). -/
def REQUEST_TIMEOUT_MS : Nat := 30000

/-- Struct `ProxyRequest` (main.rs lines 48-56).  The header map is modelled as an
association list in serialization order. -/
structure ProxyRequest where
  url : String
  method : String
  headers : Option (List (String × String))
  body : Option Json
  use_cache : Bool
deriving DecidableEq, Repr

/-- Struct `ProxyResponse` (main.rs lines 73-81). -/
structure ProxyResponse where
  status : Nat
  headers : List (String × String)
  body : Json
  cached : Bool
  timestamp : String
  duration_ms : Nat
deriving DecidableEq, Repr

/-- Serialization `serde_json::to_string` of the optional header map: `None` serializes
to `null`, a map serializes as a JSON object with string values. -/
def serOptHeadersChars : Option (List (String × String)) → List Char
  | none => nullTextChars
  | some l => serJson (.obj (l.map (fun kv => (kv.1, Json.str kv.2))))

/-- Serialization `serde_json::to_string` of the optional body: `None` serializes to
`null`, `Some v` serializes as `v`. -/
def serOptBodyChars : Option Json → List Char
  | none => nullTextChars
  | some j => serJson j

/-- Fingerprint `generate_cache_key` (main.rs lines 110-117):
`format!("{}:{}:{}:{}", method, url, to_string(headers), to_string(body))`. -/
def generate_cache_key (req : ProxyRequest) : String :=
  req.method ++ ":" ++ req.url ++ ":" ++ String.mk (serOptHeadersChars req.headers)
    ++ ":" ++ String.mk (serOptBodyChars req.body)

/-- The in-memory response cache (`moka::future::Cache<String, ProxyResponse>`),
modelled as an association list keyed by fingerprint. -/
abbrev Cache := List (String × ProxyResponse)

/-- Lookup `cache.get(&key)` — the stored value for `key`, if present. -/
def cacheGet (cache : Cache) (key : String) : Option ProxyResponse :=
  (cache.find? (fun p => p.1 == key)).map (fun p => p.2)

/-- Store `cache.insert(key, value)` — replaces any previous entry for `key`. -/
def cacheInsert (key : String) (v : ProxyResponse) (cache : Cache) : Cache :=
  (key, v) :: cache.filter (fun p => !(p.1 == key))

/-- ASCII model of Rust's `str::to_uppercase` (every method string the
handler distinguishes is ASCII). -/
def toUpperAscii (s : String) : String := String.mk (s.data.map Char.toUpper)

/-- The supported outbound HTTP methods (main.rs lines 147-152). -/
inductive HttpMethod where
  | GET | POST | PUT | DELETE | PATCH
deriving DecidableEq, Repr

/-- Method dispatch (main.rs lines 147-158): `req.method.to_uppercase()`
selects the builder; anything else is unsupported. -/
def methodFromString (m : String) : Option HttpMethod :=
  if toUpperAscii m = "GET" then some .GET
  else if toUpperAscii m = "POST" then some .POST
  else if toUpperAscii m = "PUT" then some .PUT
  else if toUpperAscii m = "DELETE" then some .DELETE
  else if toUpperAscii m = "PATCH" then some .PATCH
  else none

/-- One possible behaviour of the upstream endpoint for a single outbound
HTTP call.  `hangs` models an upstream that never answers; `netError` a
connect/send failure; `responds` an answer after `latencyMs` milliseconds
whose body decodes to `some` JSON value or fails to decode (`none`). -/
inductive UpstreamBehavior where
  | hangs
  | netError (msg : String)
  | responds (latencyMs : Nat) (status : Nat)
      (headers : List (String × String)) (body : Option Json)
deriving DecidableEq, Repr

/-- Per-call environment for the proxy handler: the upstream behaviour,
the wall-clock elapsed at the moment a cache hit returns, the value
`Utc::now().to_rfc3339()` takes when a response object is built, and the
wire-validity predicate for caller-supplied headers (`HeaderName::from_str`
and `HeaderValue::from_str` both succeeding, main.rs lines 136-144). -/
structure CallEnv where
  behavior : UpstreamBehavior
  hitElapsedMs : Nat
  nowString : String
  headerValid : String → String → Bool

/-- The HTTP response produced by the `proxy` handler: `Ok` with a
`ProxyResponse` JSON body, or one of the error responses with their
status codes and `error` strings (main.rs lines 153-157, 215-229). -/
inductive ProxyResult where
  | ok (response : ProxyResponse)
  | badRequest (error : String)
  | internalError (error : String)
  | gatewayTimeout (error : String)
deriving DecidableEq, Repr

/-- Everything one `proxy` call produces or affects: its HTTP result, the
cache afterwards, how often the `ACTIVE_REQUESTS` gauge was incremented
and decremented, how often `CACHE_HITS` was incremented, whether a cache
lookup was performed, which method (if any) was dispatched upstream, the
filtered outbound header set, and the wall-clock elapsed when the handler
returned. -/
structure ProxyOutcome where
  result : ProxyResult
  cacheAfter : Cache
  gaugeIncs : Nat
  gaugeDecs : Nat
  cacheHits : Nat
  cacheLookedUp : Bool
  dispatched : Option HttpMethod
  outboundHeaders : List (String × String)
  elapsedMsAtExit : Nat
deriving Repr

/-- The part of the `proxy` handler after the cache check (main.rs lines
135-230): header filtering, method dispatch, the timeout-wrapped send, the
decode of the body, the conditional cache store, and the gauge updates on
each exit path.  Note that the unsupported-method early return (lines
153-157) performs no `ACTIVE_REQUESTS.dec()`. -/
def proxyForward (req : ProxyRequest) (cache : Cache) (env : CallEnv)
    (lookedUp : Bool) : ProxyOutcome :=
  let fwd := (req.headers.getD []).filter (fun kv => env.headerValid kv.1 kv.2)
  match methodFromString req.method with
  | none =>
    { result := .badRequest "Unsupported HTTP method"
      cacheAfter := cache
      gaugeIncs := 1
      gaugeDecs := 0
      cacheHits := 0
      cacheLookedUp := lookedUp
      dispatched := none
      outboundHeaders := fwd
      elapsedMsAtExit := 0 }
  | some m =>
    match env.behavior with
    | .hangs =>
      { result := .gatewayTimeout "Request timeout"
        cacheAfter := cache
        gaugeIncs := 1
        gaugeDecs := 1
        cacheHits := 0
        cacheLookedUp := lookedUp
        dispatched := some m
        outboundHeaders := fwd
        elapsedMsAtExit := REQUEST_TIMEOUT_MS }
    | .netError msg =>
      { result := .internalError ("Request failed: " ++ msg)
        cacheAfter := cache
        gaugeIncs := 1
        gaugeDecs := 1
        cacheHits := 0
        cacheLookedUp := lookedUp
        dispatched := some m
        outboundHeaders := fwd
        elapsedMsAtExit := 0 }
    | .responds lat st hdrs bodyOpt =>
      if REQUEST_TIMEOUT_MS ≤ lat then
        { result := .gatewayTimeout "Request timeout"
          cacheAfter := cache
          gaugeIncs := 1
          gaugeDecs := 1
          cacheHits := 0
          cacheLookedUp := lookedUp
          dispatched := some m
          outboundHeaders := fwd
          elapsedMsAtExit := REQUEST_TIMEOUT_MS }
      else
        match bodyOpt with
        | some body =>
          let response_data : ProxyResponse :=
            { status := st
              headers := hdrs
              body := body
              cached := false
              timestamp := env.nowString
              duration_ms := lat }
          let newCache :=
            if req.use_cache = true ∧ req.method = "GET" ∧ 200 ≤ st ∧ st < 300 then
              cacheInsert (generate_cache_key req) response_data cache
            else cache
          { result := .ok response_data
            cacheAfter := newCache
            gaugeIncs := 1
            gaugeDecs := 1
            cacheHits := 0
            cacheLookedUp := lookedUp
            dispatched := some m
            outboundHeaders := fwd
            elapsedMsAtExit := lat }
        | none =>
          { result := .ok
              { status := st
                headers := hdrs
                body := Json.null
                cached := false
                timestamp := env.nowString
                duration_ms := lat }
            cacheAfter := cache
            gaugeIncs := 1
            gaugeDecs := 1
            cacheHits := 0
            cacheLookedUp := lookedUp
            dispatched := some m
            outboundHeaders := fwd
            elapsedMsAtExit := lat }

/-- The `proxy` handler (main.rs lines 119-231).  The gauge is incremented
once at entry; the cache is consulted only when `use_cache && method == "GET"`
(exact, case-sensitive comparison, line 125); a hit returns the stored
response verbatim. -/
def proxy (req : ProxyRequest) (cache : Cache) (env : CallEnv) : ProxyOutcome :=
  if req.use_cache = true ∧ req.method = "GET" then
    match cacheGet cache (generate_cache_key req) with
    | some cachedResponse =>
      { result := .ok cachedResponse
        cacheAfter := cache
        gaugeIncs := 1
        gaugeDecs := 1
        cacheHits := 1
        cacheLookedUp := true
        dispatched := none
        outboundHeaders := []
        elapsedMsAtExit := env.hitElapsedMs }
    | none => proxyForward req cache env true
  else proxyForward req cache env false

/-! ### The WebSocket relay -/

/-- Struct `WebSocketRequest` (main.rs lines 58-63). -/
structure WebSocketRequest where
  url : String
  messages : List String
  duration : Option Nat
deriving DecidableEq, Repr

/-- Struct `WebSocketMessage` (main.rs lines 83-88). -/
structure WebSocketMessage where
  direction : String
  content : String
  timestamp : String
deriving DecidableEq, Repr

/-- One read event during the listen loop: a frame whose `to_text()`
succeeded (`msg (some s)`), a frame that is not text (`msg none`), or a
read error, which breaks the loop (main.rs lines 275-291). -/
inductive WsItem where
  | msg (decoded : Option String)
  | readErr
deriving DecidableEq, Repr

/-- Environment of one relay session: URL validity, connect success, which
send attempts succeed, the timestamps observed, the inbound events with
their arrival times (milliseconds since the listen phase began, in
increasing order), and the total elapsed time at the end. -/
structure WsEnv where
  urlValid : Bool
  connectOk : Bool
  sendOk : Nat → Bool
  sentTs : Nat → String
  incoming : List (Nat × WsItem)
  recvTs : Nat → String
  totalElapsedMs : Nat

/-- The relay's HTTP response: 400 for a bad URL, 500 for a connect
failure, otherwise the `"completed"` payload (main.rs lines 236-252,
294-298). -/
inductive WsOutcome where
  | badRequest (error : String)
  | internalError (error : String)
  | completed (messages : List WebSocketMessage) (duration_ms : Nat)
deriving DecidableEq, Repr

/-- The send loop (main.rs lines 257-272): messages are sent in order,
each success appends a `"sent"` transcript entry, and the first failure
breaks the loop. -/
def wsSendPhase : Nat → List String → (Nat → Bool) → (Nat → String) →
    List WebSocketMessage
  | _, [], _, _ => []
  | i, m :: rest, sendOk, ts =>
    if sendOk i then
      { direction := "sent", content := m, timestamp := ts i } ::
        wsSendPhase (i + 1) rest sendOk ts
    else []

/-- The listen loop under its deadline (main.rs lines 273-292): events
arriving before the deadline are processed in order; a text frame appends
a `"received"` entry, a non-text frame is skipped, a read error breaks the
loop, and the deadline abandons everything after it. -/
def wsListenPhase : List (Nat × WsItem) → Nat → (Nat → String) →
    List WebSocketMessage
  | [], _, _ => []
  | e :: rest, deadline, ts =>
    if deadline ≤ e.1 then []
    else
      match e.2 with
      | .readErr => []
      | .msg none => wsListenPhase rest deadline ts
      | .msg (some s) =>
        { direction := "received", content := s, timestamp := ts e.1 } ::
          wsListenPhase rest deadline ts

/-- The `websocket` handler (main.rs lines 233-299): URL check, connect,
send phase, listen phase bounded by `duration.unwrap_or(5)` seconds, and
the unconditional `"completed"` result. -/
def websocket (req : WebSocketRequest) (env : WsEnv) : WsOutcome :=
  if env.urlValid = false then .badRequest "Invalid WebSocket URL"
  else if env.connectOk = false then .internalError "WebSocket connection failed"
  else
    .completed
      (wsSendPhase 0 req.messages env.sendOk env.sentTs ++
        wsListenPhase env.incoming (1000 * req.duration.getD 5) env.recvTs)
      env.totalElapsedMs

/-! ### The GraphQL adapter -/

/-- Struct `GraphQLRequest` (main.rs lines 65-71). -/
structure GraphQLRequest where
  url : String
  query : String
  «variables» : Option Json
  headers : Option (List (String × String))
deriving DecidableEq, Repr

/-- Field access `serde_json::Value::get` on an object (main.rs lines 332-333). -/
def jsonGetField : Json → String → Option Json
  | .obj fs, key => (fs.find? (fun p => p.1 == key)).map (fun p => p.2)
  | _, _ => none

/-- The GraphQL handler's HTTP response (main.rs lines 329-344). -/
inductive GraphQLOutcome where
  | ok (dataField errorsField : Option Json) (duration_ms : Nat)
  | internalError (error : String)
deriving DecidableEq, Repr

/-- The `graphql` handler (main.rs lines 301-345).  It builds a fresh
`reqwest::Client::new()` without a timeout (line 304) and does not wrap
the send in `tokio::time::timeout`, so when the upstream hangs the
handler never returns — modelled by the `none` result. -/
def graphql (req : GraphQLRequest) (b : UpstreamBehavior) :
    Option GraphQLOutcome :=
  match b with
  | .hangs => none
  | .netError msg => some (.internalError ("GraphQL request failed: " ++ msg))
  | .responds lat _st _hd bodyOpt =>
    match bodyOpt with
    | none => some (.internalError "Failed to parse GraphQL response")
    | some j => some (.ok (jsonGetField j "data") (jsonGetField j "errors") lat)

/-! ### Cache traces -/

/-- A system step that can change the cache: one `proxy` call, or the
removal of an entry by TTL expiry or capacity eviction. -/
inductive Step where
  | call (req : ProxyRequest) (env : CallEnv)
  | evict (key : String)

/-- Apply one step to the cache. -/
def applyStep (cache : Cache) : Step → Cache
  | .call req env => (proxy req cache env).cacheAfter
  | .evict key => cache.filter (fun p => !(p.1 == key))

/-- The cache reached from the empty initial cache by a sequence of steps. -/
def runTrace (steps : List Step) : Cache :=
  steps.foldl applyStep []

/-! ### Properties of the fingerprint -/

theorem string_data_inj {s t : String} (h : s.data = t.data) : s = t := by
  cases s
  cases t
  exact congrArg String.mk h

/-- The character-level decomposition of a fingerprint. -/
theorem generate_cache_key_data (req : ProxyRequest) :
    (generate_cache_key req).data =
      req.method.data ++ ':' :: (req.url.data ++ ':' ::
        (serOptHeadersChars req.headers ++ ':' :: serOptBodyChars req.body)) := by
  simp [generate_cache_key, String.data_append]

theorem serOptHeadersChars_inj {h1 h2 : Option (List (String × String))}
    (h : serOptHeadersChars h1 = serOptHeadersChars h2) : h1 = h2 := by
  cases h1 with
  | none =>
    cases h2 with
    | none => rfl
    | some l2 =>
      rw [serOptHeadersChars, serOptHeadersChars, serJson_obj] at h
      exact absurd (List.head_eq_of_cons_eq h) (by decide)
  | some l1 =>
    cases h2 with
    | none =>
      rw [serOptHeadersChars, serOptHeadersChars, serJson_obj] at h
      exact absurd (List.head_eq_of_cons_eq h) (by decide)
    | some l2 =>
      rw [serOptHeadersChars, serOptHeadersChars] at h
      have hobj := serJson_inj h
      have hlists := Json.obj.inj hobj
      have hinj : Function.Injective
          (fun kv : String × String => (kv.1, Json.str kv.2)) := by
        intro a b hab
        obtain ⟨ha, hb⟩ := Prod.mk.injEq _ _ _ _ ▸ hab
        exact Prod.ext ha (Json.str.inj hb)
      exact congrArg some (List.map_injective_iff.mpr hinj hlists)

theorem serOptBodyChars_eq (b : Option Json) :
    serOptBodyChars b = serJson (b.getD .null) := by
  cases b with
  | none =>
    rw [serOptBodyChars, Option.getD_none, serJson_null]
    rfl
  | some j => rfl

theorem serOptBodyChars_inj {b1 b2 : Option Json}
    (h : serOptBodyChars b1 = serOptBodyChars b2) :
    b1.getD .null = b2.getD .null := by
  rw [serOptBodyChars_eq, serOptBodyChars_eq] at h
  exact serJson_inj h

/-- A body slot that serializes to the JSON text `null`: either absent or
the JSON value `null`. -/
abbrev bodyNullLike (b : Option Json) : Prop := b = none ∨ b = some .null

theorem generate_cache_key_method_ne {r1 r2 : ProxyRequest}
    (hu : r1.url = r2.url) (hh : r1.headers = r2.headers) (hb : r1.body = r2.body)
    (hm : r1.method ≠ r2.method) :
    generate_cache_key r1 ≠ generate_cache_key r2 := by
  intro h
  have hd := congrArg String.data h
  rw [generate_cache_key_data, generate_cache_key_data, hu, hh, hb] at hd
  exact hm (string_data_inj (List.append_cancel_right hd))

theorem generate_cache_key_url_ne {r1 r2 : ProxyRequest}
    (hm : r1.method = r2.method) (hh : r1.headers = r2.headers) (hb : r1.body = r2.body)
    (hu : r1.url ≠ r2.url) :
    generate_cache_key r1 ≠ generate_cache_key r2 := by
  intro h
  have hd := congrArg String.data h
  rw [generate_cache_key_data, generate_cache_key_data, hm, hh, hb] at hd
  have h1 := List.tail_eq_of_cons_eq (List.append_cancel_left hd)
  exact hu (string_data_inj (List.append_cancel_right h1))

theorem generate_cache_key_headers_ne {r1 r2 : ProxyRequest}
    (hm : r1.method = r2.method) (hu : r1.url = r2.url) (hb : r1.body = r2.body)
    (hh : r1.headers ≠ r2.headers) :
    generate_cache_key r1 ≠ generate_cache_key r2 := by
  intro h
  have hd := congrArg String.data h
  rw [generate_cache_key_data, generate_cache_key_data, hm, hu, hb] at hd
  have h1 := List.tail_eq_of_cons_eq (List.append_cancel_left hd)
  have h2 := List.tail_eq_of_cons_eq (List.append_cancel_left h1)
  exact hh (serOptHeadersChars_inj (List.append_cancel_right h2))

theorem generate_cache_key_body_ne {r1 r2 : ProxyRequest}
    (hm : r1.method = r2.method) (hu : r1.url = r2.url) (hh : r1.headers = r2.headers)
    (hb : r1.body ≠ r2.body) (hnl : ¬(bodyNullLike r1.body ∧ bodyNullLike r2.body)) :
    generate_cache_key r1 ≠ generate_cache_key r2 := by
  intro h
  have hd := congrArg String.data h
  rw [generate_cache_key_data, generate_cache_key_data, hm, hu, hh] at hd
  have h1 := List.tail_eq_of_cons_eq (List.append_cancel_left hd)
  have h2 := List.tail_eq_of_cons_eq (List.append_cancel_left h1)
  have h3 := serOptBodyChars_inj
    (List.tail_eq_of_cons_eq (List.append_cancel_left h2))
  cases hb1 : r1.body with
  | none =>
    cases hb2 : r2.body with
    | none => exact hb (hb1 ▸ hb2 ▸ rfl)
    | some j2 =>
      rw [hb1, hb2] at h3
      simp only [Option.getD_none, Option.getD_some] at h3
      exact hnl ⟨Or.inl hb1, Or.inr (by rw [hb2, ← h3])⟩
  | some j1 =>
    cases hb2 : r2.body with
    | none =>
      rw [hb1, hb2] at h3
      simp only [Option.getD_none, Option.getD_some] at h3
      exact hnl ⟨Or.inr (by rw [hb1, h3]), Or.inl hb2⟩
    | some j2 =>
      rw [hb1, hb2] at h3
      simp only [Option.getD_some] at h3
      exact hb (by rw [hb1, hb2, h3])

theorem generate_cache_key_congr {r1 r2 : ProxyRequest}
    (hm : r1.method = r2.method) (hu : r1.url = r2.url)
    (hh : r1.headers = r2.headers) (hb : r1.body = r2.body) :
    generate_cache_key r1 = generate_cache_key r2 := by
  rw [generate_cache_key, generate_cache_key, hm, hu, hh, hb]

/-! ### Characterizations of the proxy's paths -/

/-- The cache-hit path is taken: the request is cacheable and the lookup
succeeds (main.rs lines 125-132). -/
abbrev cacheHitTaken (req : ProxyRequest) (cache : Cache) : Prop :=
  req.use_cache = true ∧ req.method = "GET" ∧
    (cacheGet cache (generate_cache_key req)).isSome = true

theorem proxy_hit (req : ProxyRequest) (cache : Cache) (env : CallEnv)
    (r : ProxyResponse) (hc : req.use_cache = true) (hm : req.method = "GET")
    (hg : cacheGet cache (generate_cache_key req) = some r) :
    proxy req cache env =
      { result := .ok r
        cacheAfter := cache
        gaugeIncs := 1
        gaugeDecs := 1
        cacheHits := 1
        cacheLookedUp := true
        dispatched := none
        outboundHeaders := []
        elapsedMsAtExit := env.hitElapsedMs } := by
  unfold proxy
  rw [if_pos ⟨hc, hm⟩, hg]

theorem proxy_not_hit (req : ProxyRequest) (cache : Cache) (env : CallEnv)
    (h : ¬ cacheHitTaken req cache) :
    ∃ l, proxy req cache env = proxyForward req cache env l := by
  unfold proxy
  by_cases hc : req.use_cache = true ∧ req.method = "GET"
  · rw [if_pos hc]
    cases hg : cacheGet cache (generate_cache_key req) with
    | some r => exact absurd ⟨hc.1, hc.2, by rw [hg]; rfl⟩ h
    | none => exact ⟨true, rfl⟩
  · rw [if_neg hc]
    exact ⟨false, rfl⟩

theorem proxyForward_unsupported (req : ProxyRequest) (cache : Cache)
    (env : CallEnv) (l : Bool) (hm : methodFromString req.method = none) :
    proxyForward req cache env l =
      { result := .badRequest "Unsupported HTTP method"
        cacheAfter := cache
        gaugeIncs := 1
        gaugeDecs := 0
        cacheHits := 0
        cacheLookedUp := l
        dispatched := none
        outboundHeaders := (req.headers.getD []).filter
          (fun kv => env.headerValid kv.1 kv.2)
        elapsedMsAtExit := 0 } := by
  unfold proxyForward
  rw [hm]

theorem proxyForward_hangs (req : ProxyRequest) (cache : Cache)
    (env : CallEnv) (l : Bool) (m : HttpMethod)
    (hm : methodFromString req.method = some m) (hb : env.behavior = .hangs) :
    proxyForward req cache env l =
      { result := .gatewayTimeout "Request timeout"
        cacheAfter := cache
        gaugeIncs := 1
        gaugeDecs := 1
        cacheHits := 0
        cacheLookedUp := l
        dispatched := some m
        outboundHeaders := (req.headers.getD []).filter
          (fun kv => env.headerValid kv.1 kv.2)
        elapsedMsAtExit := REQUEST_TIMEOUT_MS } := by
  unfold proxyForward
  rw [hm, hb]

theorem proxyForward_decode_failure (req : ProxyRequest) (cache : Cache)
    (env : CallEnv) (l : Bool) (m : HttpMethod) (lat st : Nat)
    (hdrs : List (String × String))
    (hm : methodFromString req.method = some m)
    (hb : env.behavior = .responds lat st hdrs none)
    (hlat : lat < REQUEST_TIMEOUT_MS) :
    proxyForward req cache env l =
      { result := .ok
          { status := st
            headers := hdrs
            body := Json.null
            cached := false
            timestamp := env.nowString
            duration_ms := lat }
        cacheAfter := cache
        gaugeIncs := 1
        gaugeDecs := 1
        cacheHits := 0
        cacheLookedUp := l
        dispatched := some m
        outboundHeaders := (req.headers.getD []).filter
          (fun kv => env.headerValid kv.1 kv.2)
        elapsedMsAtExit := lat } := by
  unfold proxyForward
  rw [hm, hb]
  simp only [if_neg (Nat.not_le.mpr hlat)]

theorem proxyForward_decoded (req : ProxyRequest) (cache : Cache)
    (env : CallEnv) (l : Bool) (m : HttpMethod) (lat st : Nat)
    (hdrs : List (String × String)) (body : Json)
    (hm : methodFromString req.method = some m)
    (hb : env.behavior = .responds lat st hdrs (some body))
    (hlat : lat < REQUEST_TIMEOUT_MS) :
    proxyForward req cache env l =
      { result := .ok
          { status := st
            headers := hdrs
            body := body
            cached := false
            timestamp := env.nowString
            duration_ms := lat }
        cacheAfter :=
          if req.use_cache = true ∧ req.method = "GET" ∧ 200 ≤ st ∧ st < 300 then
            cacheInsert (generate_cache_key req)
              { status := st
                headers := hdrs
                body := body
                cached := false
                timestamp := env.nowString
                duration_ms := lat } cache
          else cache
        gaugeIncs := 1
        gaugeDecs := 1
        cacheHits := 0
        cacheLookedUp := l
        dispatched := some m
        outboundHeaders := (req.headers.getD []).filter
          (fun kv => env.headerValid kv.1 kv.2)
        elapsedMsAtExit := lat } := by
  unfold proxyForward
  rw [hm, hb]
  simp only [if_neg (Nat.not_le.mpr hlat)]

theorem proxyForward_netError (req : ProxyRequest) (cache : Cache)
    (env : CallEnv) (l : Bool) (m : HttpMethod) (msg : String)
    (hm : methodFromString req.method = some m)
    (hb : env.behavior = .netError msg) :
    proxyForward req cache env l =
      { result := .internalError ("Request failed: " ++ msg)
        cacheAfter := cache
        gaugeIncs := 1
        gaugeDecs := 1
        cacheHits := 0
        cacheLookedUp := l
        dispatched := some m
        outboundHeaders := (req.headers.getD []).filter
          (fun kv => env.headerValid kv.1 kv.2)
        elapsedMsAtExit := 0 } := by
  unfold proxyForward
  rw [hm, hb]

theorem proxyForward_late (req : ProxyRequest) (cache : Cache)
    (env : CallEnv) (l : Bool) (m : HttpMethod) (lat st : Nat)
    (hdrs : List (String × String)) (bodyOpt : Option Json)
    (hm : methodFromString req.method = some m)
    (hb : env.behavior = .responds lat st hdrs bodyOpt)
    (hlat : REQUEST_TIMEOUT_MS ≤ lat) :
    proxyForward req cache env l =
      { result := .gatewayTimeout "Request timeout"
        cacheAfter := cache
        gaugeIncs := 1
        gaugeDecs := 1
        cacheHits := 0
        cacheLookedUp := l
        dispatched := some m
        outboundHeaders := (req.headers.getD []).filter
          (fun kv => env.headerValid kv.1 kv.2)
        elapsedMsAtExit := REQUEST_TIMEOUT_MS } := by
  unfold proxyForward
  rw [hm, hb]
  simp only [if_pos hlat]

/-- On every path that returns a fresh `ProxyResponse` (no cache hit), its
`duration_ms` equals the wall-clock elapsed at exit. -/
theorem proxy_fresh_ok_duration (req : ProxyRequest) (cache : Cache)
    (env : CallEnv) (r : ProxyResponse)
    (hnohit : (proxy req cache env).cacheHits = 0)
    (hr : (proxy req cache env).result = .ok r) :
    r.duration_ms = (proxy req cache env).elapsedMsAtExit := by
  by_cases hhit : cacheHitTaken req cache
  · obtain ⟨hc, hm, hg⟩ := hhit
    obtain ⟨r', hr'⟩ := Option.isSome_iff_exists.mp hg
    rw [proxy_hit req cache env r' hc hm hr'] at hnohit
    simp at hnohit
  · obtain ⟨l, hl⟩ := proxy_not_hit req cache env hhit
    rw [hl] at hr ⊢
    cases hm : methodFromString req.method with
    | none =>
      rw [proxyForward_unsupported req cache env l hm] at hr
      exact absurd hr (by simp)
    | some m =>
      cases hb : env.behavior with
      | hangs =>
        rw [proxyForward_hangs req cache env l m hm hb] at hr
        exact absurd hr (by simp)
      | netError msg =>
        rw [proxyForward_netError req cache env l m msg hm hb] at hr
        exact absurd hr (by simp)
      | responds lat st hdrs bodyOpt =>
        by_cases hlat : lat < REQUEST_TIMEOUT_MS
        · cases bodyOpt with
          | none =>
            rw [proxyForward_decode_failure req cache env l m lat st hdrs hm hb hlat]
              at hr ⊢
            simp at hr
            rw [← hr]
          | some body =>
            rw [proxyForward_decoded req cache env l m lat st hdrs body hm hb hlat]
              at hr ⊢
            simp at hr
            rw [← hr]
        · rw [proxyForward_late req cache env l m lat st hdrs bodyOpt hm hb
            (by omega)] at hr
          exact absurd hr (by simp)

/-! ### Properties of the relay's phases -/

theorem wsSendPhase_direction (msgs : List String) (sendOk : Nat → Bool)
    (ts : Nat → String) : ∀ i, ∀ e ∈ wsSendPhase i msgs sendOk ts,
      e.direction = "sent" := by
  induction msgs with
  | nil => intro i e he; simp [wsSendPhase] at he
  | cons m rest ihm =>
    intro i e he
    rw [wsSendPhase] at he
    by_cases h : sendOk i = true
    · rw [if_pos h] at he
      rcases List.mem_cons.mp he with h1 | h1
      · rw [h1]
      · exact ihm (i + 1) e h1
    · rw [if_neg h] at he
      simp at he

theorem wsListenPhase_direction (incoming : List (Nat × WsItem)) (deadline : Nat)
    (ts : Nat → String) : ∀ e ∈ wsListenPhase incoming deadline ts,
      e.direction = "received" := by
  induction incoming with
  | nil => intro e he; simp [wsListenPhase] at he
  | cons p rest ihp =>
    intro e he
    obtain ⟨t, item⟩ := p
    rw [wsListenPhase] at he
    by_cases ht : deadline ≤ t
    · rw [if_pos ht] at he; simp at he
    · rw [if_neg ht] at he
      cases item with
      | readErr => simp at he
      | msg d =>
        cases d with
        | none => exact ihp e he
        | some s =>
          rcases List.mem_cons.mp he with h1 | h1
          · rw [h1]
          · exact ihp e h1

theorem wsSendPhase_content (sendOk : Nat → Bool) (ts : Nat → String) :
    ∀ (msgs : List String) (i k : Nat),
      (∀ d, d < k → sendOk (i + d) = true) → sendOk (i + k) = false →
      (wsSendPhase i msgs sendOk ts).map (fun e => e.content) = msgs.take k := by
  intro msgs
  induction msgs with
  | nil => intro i k hok hfail; simp [wsSendPhase]
  | cons m rest ihm =>
    intro i k hok hfail
    cases k with
    | zero =>
      have h0 : sendOk i = false := by simpa using hfail
      rw [wsSendPhase, if_neg (by simp [h0])]
      simp
    | succ k' =>
      have h0 : sendOk i = true := by simpa using hok 0 (by omega)
      rw [wsSendPhase, if_pos h0]
      have hrest := ihm (i + 1) k'
        (fun d hd => by
          have := hok (d + 1) (by omega)
          simpa [Nat.add_assoc, Nat.add_comm 1 d] using this)
        (by
          have := hfail
          simpa [Nat.add_assoc, Nat.add_comm 1 k'] using this)
      simp only [List.map_cons, List.take_succ_cons, hrest]

theorem wsSendPhase_length_le (msgs : List String) (sendOk : Nat → Bool)
    (ts : Nat → String) :
    ∀ i, (wsSendPhase i msgs sendOk ts).length ≤ msgs.length := by
  induction msgs with
  | nil => intro i; simp [wsSendPhase]
  | cons m rest ihm =>
    intro i
    rw [wsSendPhase]
    by_cases h : sendOk i = true
    · rw [if_pos h]
      simpa using ihm (i + 1)
    · rw [if_neg h]
      simp

/-- The listen loop never looks past the deadline: events arriving at or
after the deadline are abandoned. -/
theorem wsListenPhase_deadline (incoming : List (Nat × WsItem)) (deadline : Nat)
    (ts : Nat → String) :
    wsListenPhase incoming deadline ts =
      wsListenPhase (incoming.takeWhile (fun p => decide (p.1 < deadline)))
        deadline ts := by
  induction incoming with
  | nil => rfl
  | cons p rest ihp =>
    obtain ⟨t, item⟩ := p
    by_cases ht : deadline ≤ t
    · rw [wsListenPhase, if_pos ht, List.takeWhile_cons]
      rw [if_neg (by simpa using ht)]
      rfl
    · rw [wsListenPhase, if_neg ht, List.takeWhile_cons, if_pos (by
        simpa using Nat.lt_of_not_le ht)]
      rw [wsListenPhase, if_neg ht]
      cases item with
      | readErr => rfl
      | msg d =>
        cases d with
        | none => exact ihp
        | some s => rw [ihp]

/-! ### Cache provenance -/

/-- What the spec requires of every cache entry: it is keyed by the
fingerprint of some request with `use_cache = true` and method exactly
`"GET"`, and it stores a response whose status is in `[200, 300)`. -/
def cacheEntryOk (p : String × ProxyResponse) : Prop :=
  ∃ req : ProxyRequest, p.1 = generate_cache_key req ∧
    req.use_cache = true ∧ req.method = "GET" ∧
    200 ≤ p.2.status ∧ p.2.status < 300

/-- A single `proxy` call only adds entries that satisfy `cacheEntryOk`. -/
theorem proxy_cacheAfter_mem (req : ProxyRequest) (cache : Cache)
    (env : CallEnv) (p : String × ProxyResponse)
    (hp : p ∈ (proxy req cache env).cacheAfter) :
    p ∈ cache ∨ cacheEntryOk p := by
  by_cases hhit : cacheHitTaken req cache
  · obtain ⟨hc, hm, hg⟩ := hhit
    obtain ⟨r', hr'⟩ := Option.isSome_iff_exists.mp hg
    rw [proxy_hit req cache env r' hc hm hr'] at hp
    exact Or.inl hp
  · obtain ⟨l, hl⟩ := proxy_not_hit req cache env hhit
    rw [hl] at hp
    cases hm : methodFromString req.method with
    | none =>
      rw [proxyForward_unsupported req cache env l hm] at hp
      exact Or.inl hp
    | some m =>
      cases hb : env.behavior with
      | hangs =>
        rw [proxyForward_hangs req cache env l m hm hb] at hp
        exact Or.inl hp
      | netError msg =>
        rw [proxyForward_netError req cache env l m msg hm hb] at hp
        exact Or.inl hp
      | responds lat st hdrs bodyOpt =>
        by_cases hlat : lat < REQUEST_TIMEOUT_MS
        · cases bodyOpt with
          | none =>
            rw [proxyForward_decode_failure req cache env l m lat st hdrs hm hb hlat]
              at hp
            exact Or.inl hp
          | some body =>
            rw [proxyForward_decoded req cache env l m lat st hdrs body hm hb hlat]
              at hp
            by_cases hcond :
                req.use_cache = true ∧ req.method = "GET" ∧ 200 ≤ st ∧ st < 300
            · rw [if_pos hcond] at hp
              rw [cacheInsert] at hp
              rcases List.mem_cons.mp hp with h1 | h1
              · refine Or.inr ⟨req, ?_, hcond.1, hcond.2.1, ?_, ?_⟩
                · rw [h1]
                · rw [h1]; exact hcond.2.2.1
                · rw [h1]; exact hcond.2.2.2
              · exact Or.inl (List.mem_of_mem_filter h1)
            · rw [if_neg hcond] at hp
              exact Or.inl hp
        · rw [proxyForward_late req cache env l m lat st hdrs bodyOpt hm hb
            (by omega)] at hp
          exact Or.inl hp

/-! ### The claims -/

/-- C6: In every reachable state, every entry held by the cache was stored
by an execution whose request had `use_cache = true` and method `GET` and
whose upstream response status was in `[200, 300)`; no other path inserts
into the cache. -/
theorem C6_cache_entries_only_cacheable_get_2xx (steps : List Step)
    (p : String × ProxyResponse) (hp : p ∈ runTrace steps) : cacheEntryOk p := by
  suffices h : ∀ (ss : List Step) (c : Cache), (∀ q ∈ c, cacheEntryOk q) →
      ∀ q ∈ ss.foldl applyStep c, cacheEntryOk q by
    exact h steps [] (by simp) p hp
  intro ss
  induction ss with
  | nil =>
    intro c hc q hq
    exact hc q (by simpa using hq)
  | cons s rest ihs =>
    intro c hc q hq
    rw [List.foldl_cons] at hq
    refine ihs (applyStep c s) ?_ q hq
    intro q' hq'
    cases s with
    | call req env =>
      rcases proxy_cacheAfter_mem req c env q' hq' with h1 | h1
      · exact hc q' h1
      · exact h1
    | evict key =>
      exact hc q' (List.mem_of_mem_filter hq')

/-- C7: When the upstream responds but its body fails to decode as JSON,
the proxy does not fail: it returns a successful `ProxyResponse` with a
null body, the real upstream status, and the collected upstream headers. -/
theorem C7_decode_failure_recovered_with_null_body (req : ProxyRequest)
    (cache : Cache) (env : CallEnv) (m : HttpMethod) (lat st : Nat)
    (hdrs : List (String × String))
    (hnh : ¬ cacheHitTaken req cache)
    (hm : methodFromString req.method = some m)
    (hb : env.behavior = .responds lat st hdrs none)
    (hlat : lat < REQUEST_TIMEOUT_MS) :
    (proxy req cache env).result = .ok
      { status := st
        headers := hdrs
        body := Json.null
        cached := false
        timestamp := env.nowString
        duration_ms := lat } := by
  obtain ⟨l, hl⟩ := proxy_not_hit req cache env hnh
  rw [hl, proxyForward_decode_failure req cache env l m lat st hdrs hm hb hlat]

/-- C8: In every completed relay transcript, every `"sent"` entry appears
before every `"received"` entry, because the send phase fully concludes
before the listen phase begins. -/
theorem C8_sent_entries_precede_received (req : WebSocketRequest) (env : WsEnv)
    (msgs : List WebSocketMessage) (dur : Nat)
    (h : websocket req env = .completed msgs dur)
    (i j : Nat) (hi : i < msgs.length) (hj : j < msgs.length)
    (hsi : (msgs.get ⟨i, hi⟩).direction = "sent")
    (hrj : (msgs.get ⟨j, hj⟩).direction = "received") : i < j := by
  unfold websocket at h
  by_cases hu : env.urlValid = false
  · rw [if_pos hu] at h
    exact absurd h (by simp)
  · rw [if_neg hu] at h
    by_cases hc : env.connectOk = false
    · rw [if_pos hc] at h
      exact absurd h (by simp)
    · rw [if_neg hc] at h
      have hmsgs := (WsOutcome.completed.inj h).1.symm
      subst hmsgs
      have hiS : i < (wsSendPhase 0 req.messages env.sendOk env.sentTs).length := by
        by_contra hge
        push_neg at hge
        have hlt : i - (wsSendPhase 0 req.messages env.sendOk env.sentTs).length <
            (wsListenPhase env.incoming (1000 * req.duration.getD 5)
              env.recvTs).length := by
          rw [List.length_append] at hi
          omega
        have hget : (wsSendPhase 0 req.messages env.sendOk env.sentTs ++
            wsListenPhase env.incoming (1000 * req.duration.getD 5)
              env.recvTs).get ⟨i, hi⟩ =
            (wsListenPhase env.incoming (1000 * req.duration.getD 5)
              env.recvTs).get
              ⟨i - (wsSendPhase 0 req.messages env.sendOk env.sentTs).length,
                hlt⟩ := by
          simp only [List.get_eq_getElem]
          exact List.getElem_append_right hge
        rw [hget] at hsi
        have hdir := wsListenPhase_direction env.incoming
          (1000 * req.duration.getD 5) env.recvTs _ (List.get_mem _ _ hlt)
        rw [hsi] at hdir
        exact absurd hdir (by decide)
      have hjS : (wsSendPhase 0 req.messages env.sendOk env.sentTs).length ≤ j := by
        by_contra hlt
        push_neg at hlt
        rw [List.get_append _ hlt] at hrj
        have hdir := wsSendPhase_direction req.messages env.sendOk env.sentTs 0 _
          (List.get_mem _ _ hlt)
        rw [hrj] at hdir
        exact absurd hdir (by decide)
      omega

/-- C9: If sending message `k` (0-based) fails after messages `0..k-1`
succeeded, no further messages are sent: the transcript's `"sent"` entries
are exactly the first `k` messages in order, followed by whatever the
listen phase collects, and the call still returns the `"completed"`
result. -/
theorem C9_send_failure_truncates_and_completes (req : WebSocketRequest)
    (env : WsEnv) (k : Nat)
    (hk : k < req.messages.length)
    (hok : ∀ d, d < k → env.sendOk d = true)
    (hfail : env.sendOk k = false)
    (hurl : env.urlValid = true) (hconn : env.connectOk = true) :
    websocket req env = .completed
      (wsSendPhase 0 req.messages env.sendOk env.sentTs ++
        wsListenPhase env.incoming (1000 * req.duration.getD 5) env.recvTs)
      env.totalElapsedMs ∧
    (wsSendPhase 0 req.messages env.sendOk env.sentTs).map (fun e => e.content) =
      req.messages.take k ∧
    (wsSendPhase 0 req.messages env.sendOk env.sentTs).map (fun e => e.direction) =
      List.replicate k "sent" := by
  have hcont := wsSendPhase_content env.sendOk env.sentTs req.messages 0 k
    (fun d hd => by simpa using hok d hd) (by simpa using hfail)
  refine ⟨?_, hcont, ?_⟩
  · unfold websocket
    rw [if_neg (by simp [hurl]), if_neg (by simp [hconn])]
  · have hlen : (wsSendPhase 0 req.messages env.sendOk env.sentTs).length = k := by
      have hmap := congrArg List.length hcont
      rw [List.length_map, List.length_take] at hmap
      omega
    refine List.eq_replicate.mpr ⟨by rw [List.length_map, hlen], ?_⟩
    intro b hb
    obtain ⟨e, he, hbe⟩ := List.mem_map.mp hb
    rw [← hbe]
    exact wsSendPhase_direction req.messages env.sendOk env.sentTs 0 e he

/-- C10: A request whose method is any non-uppercase spelling of GET
(`"get"`, `"Get"`, `"gEt"`, …) with `use_cache = true` is dispatched
upstream as a `GET`, but the proxy never performs a cache lookup and never
stores the response, because both cache paths compare the method string
for exact equality with `"GET"` while method dispatch compares the
uppercased string. -/
theorem C10_lowercase_get_forwarded_but_never_cached (req : ProxyRequest)
    (cache : Cache) (env : CallEnv)
    (hm : toUpperAscii req.method = "GET") (hne : req.method ≠ "GET")
    (hc : req.use_cache = true) :
    (proxy req cache env).cacheLookedUp = false ∧
    (proxy req cache env).cacheAfter = cache ∧
    (proxy req cache env).dispatched = some HttpMethod.GET := by
  have hcond : ¬(req.use_cache = true ∧ req.method = "GET") := by
    rintro ⟨-, h2⟩
    exact hne h2
  have hfwd : proxy req cache env = proxyForward req cache env false := by
    unfold proxy
    rw [if_neg hcond]
  have hdis : methodFromString req.method = some .GET := by
    rw [methodFromString, if_pos hm]
  rw [hfwd]
  cases hb : env.behavior with
  | hangs =>
    rw [proxyForward_hangs req cache env false .GET hdis hb]
    exact ⟨rfl, rfl, rfl⟩
  | netError msg =>
    rw [proxyForward_netError req cache env false .GET msg hdis hb]
    exact ⟨rfl, rfl, rfl⟩
  | responds lat st hdrs bodyOpt =>
    by_cases hlat : lat < REQUEST_TIMEOUT_MS
    · cases bodyOpt with
      | none =>
        rw [proxyForward_decode_failure req cache env false .GET lat st hdrs
          hdis hb hlat]
        exact ⟨rfl, rfl, rfl⟩
      | some body =>
        rw [proxyForward_decoded req cache env false .GET lat st hdrs body
          hdis hb hlat]
        refine ⟨rfl, ?_, rfl⟩
        rw [if_neg (by
          rintro ⟨-, h2, -⟩
          exact hne h2)]
    · rw [proxyForward_late req cache env false .GET lat st hdrs bodyOpt hdis hb
        (by omega)]
      exact ⟨rfl, rfl, rfl⟩

/-! ### Concrete scenarios -/

/-- A cacheable `GET` request with no headers and no body. -/
def exReq : ProxyRequest :=
  { url := "http://x/a", method := "GET", headers := none, body := none,
    use_cache := true }

/-- An upstream that answers 200 after 5 ms with the JSON body `1`. -/
def exEnv200 : CallEnv :=
  { behavior := .responds 5 200 [] (some (.num 1)), hitElapsedMs := 0,
    nowString := "t1", headerValid := fun _ _ => true }

/-- The response the proxy builds for `exReq` under `exEnv200`. -/
def exResp1 : ProxyResponse :=
  { status := 200, headers := [], body := .num 1, cached := false,
    timestamp := "t1", duration_ms := 5 }

/-- A second call's environment: the lookup takes 3 ms and the clock now
reads `t2`. -/
def exEnvHit : CallEnv :=
  { behavior := .responds 7 200 [] (some (.num 2)), hitElapsedMs := 3,
    nowString := "t2", headerValid := fun _ _ => true }

/-- C1 (code bug exhibit): executing the same cacheable `GET` twice, the
first execution returns `cached = false` and stores the response; the
second execution returns the stored copy verbatim — still carrying
`cached = false` (and the first call's timestamp and duration), because
the hit path (main.rs lines 127-131) returns the cached object without
marking it.  Body and status do agree between the two responses. -/
theorem C1_cache_hit_returns_stored_copy_with_cached_false :
    (proxy exReq [] exEnv200).result = .ok exResp1 ∧
    (proxy exReq (proxy exReq [] exEnv200).cacheAfter exEnvHit).result =
      .ok exResp1 ∧
    exResp1.cached = false := by
  decide

/-- A request with the unsupported method `FOO`. -/
def exReqFoo : ProxyRequest :=
  { url := "http://x", method := "FOO", headers := none, body := none,
    use_cache := false }

/-- C2 (code bug exhibit): the unsupported-method exit (main.rs lines
153-157) returns 400 after the gauge was incremented but never decrements
it, so this completed call changes the gauge by +1 instead of 0. -/
theorem C2_unsupported_method_leaks_gauge :
    (proxy exReqFoo [] exEnv200).result = .badRequest "Unsupported HTTP method" ∧
    (proxy exReqFoo [] exEnv200).gaugeIncs = 1 ∧
    (proxy exReqFoo [] exEnv200).gaugeDecs = 0 := by
  decide

/-- A GraphQL request. -/
def exGqlReq : GraphQLRequest :=
  { url := "http://g", query := "q", «variables» := none, headers := none }

/-- C3 counterexample: the GraphQL adapter's outbound call is not wrapped
in any deadline (it builds a fresh client without a timeout, main.rs line
304), so when the upstream hangs the handler hangs with it and no
Timeout-class result is produced. -/
theorem C3_graphql_call_lacks_deadline :
    graphql exGqlReq UpstreamBehavior.hangs = none := rfl

/-- C3 amended: the proxy's outbound HTTP call is deadline-wrapped and a
hanging upstream yields the 504 Timeout result; the WebSocket listen phase
abandons every event at or after its deadline; but the GraphQL adapter's
outbound call has no deadline and hangs when the upstream hangs. -/
theorem C3_amended_deadline_coverage :
    (∀ (req : ProxyRequest) (cache : Cache) (env : CallEnv) (m : HttpMethod),
      methodFromString req.method = some m → env.behavior = .hangs →
      ¬ cacheHitTaken req cache →
      (proxy req cache env).result = .gatewayTimeout "Request timeout") ∧
    (∀ (incoming : List (Nat × WsItem)) (deadline : Nat) (ts : Nat → String),
      wsListenPhase incoming deadline ts =
        wsListenPhase (incoming.takeWhile (fun p => decide (p.1 < deadline)))
          deadline ts) ∧
    (∀ req : GraphQLRequest, graphql req .hangs = none) := by
  refine ⟨?_, wsListenPhase_deadline, fun req => rfl⟩
  intro req cache env m hm hb hnh
  obtain ⟨l, hl⟩ := proxy_not_hit req cache env hnh
  rw [hl, proxyForward_hangs req cache env l m hm hb]

/-- An environment whose upstream never answers. -/
def exEnvHang : CallEnv :=
  { behavior := .hangs, hitElapsedMs := 0, nowString := "t",
    headerValid := fun _ _ => true }

theorem C3_amended_deadline_coverage_witness :
    methodFromString exReq.method = some HttpMethod.GET ∧
    ¬ cacheHitTaken exReq [] ∧
    (proxy exReq [] exEnvHang).result = .gatewayTimeout "Request timeout" :=
  ⟨by decide, by decide,
    C3_amended_deadline_coverage.1 exReq [] exEnvHang .GET (by decide) rfl
      (by decide)⟩

/-- A stored cache entry whose original fetch took 500 ms. -/
def exRespOld : ProxyResponse :=
  { status := 200, headers := [], body := .num 1, cached := false,
    timestamp := "t0", duration_ms := 500 }

/-- A cache already holding `exRespOld` under `exReq`'s fingerprint. -/
def exCacheSeeded : Cache := [(generate_cache_key exReq, exRespOld)]

/-- A hit whose lookup takes 1 ms. -/
def exEnvQuickHit : CallEnv :=
  { behavior := .responds 1 200 [] (some (.num 2)), hitElapsedMs := 1,
    nowString := "t9", headerValid := fun _ _ => true }

/-- C4 counterexample: on a cache hit the returned `duration_ms` is the
original fetch's 500 ms, not the 1 ms this call actually took — the hit
path returns the stored object verbatim. -/
theorem C4_cache_hit_duration_is_stale :
    (proxy exReq exCacheSeeded exEnvQuickHit).result = .ok exRespOld ∧
    exRespOld.duration_ms = 500 ∧
    (proxy exReq exCacheSeeded exEnvQuickHit).elapsedMsAtExit = 1 ∧
    ¬ exRespOld.duration_ms =
        (proxy exReq exCacheSeeded exEnvQuickHit).elapsedMsAtExit := by
  decide

/-- C4 amended: on every fresh-fetch exit that returns a `ProxyResponse`
(success and decode failure), `duration_ms` equals the wall-clock elapsed
from acceptance to result; on a cache hit the proxy instead returns the
stored response — whose `duration_ms` is that of the original fetch —
verbatim. -/
theorem C4_amended_duration_measures_elapsed :
    (∀ (req : ProxyRequest) (cache : Cache) (env : CallEnv) (r : ProxyResponse),
      (proxy req cache env).cacheHits = 0 →
      (proxy req cache env).result = .ok r →
      r.duration_ms = (proxy req cache env).elapsedMsAtExit) ∧
    (∀ (req : ProxyRequest) (cache : Cache) (env : CallEnv) (r : ProxyResponse),
      req.use_cache = true → req.method = "GET" →
      cacheGet cache (generate_cache_key req) = some r →
      (proxy req cache env).result = .ok r) := by
  constructor
  · exact fun req cache env r => proxy_fresh_ok_duration req cache env r
  · intro req cache env r hc hm hg
    rw [proxy_hit req cache env r hc hm hg]

theorem C4_amended_duration_measures_elapsed_witness :
    (proxy exReq [] exEnv200).cacheHits = 0 ∧
    (proxy exReq [] exEnv200).result = .ok exResp1 ∧
    exResp1.duration_ms = (proxy exReq [] exEnv200).elapsedMsAtExit :=
  ⟨by decide, by decide,
    C4_amended_duration_measures_elapsed.1 exReq [] exEnv200 exResp1
      (by decide) (by decide)⟩

/-- The same request as `exReq` but with an explicit JSON `null` body. -/
def exReqNullBody : ProxyRequest :=
  { url := "http://x/a", method := "GET", headers := none, body := some .null,
    use_cache := true }

/-- C5 counterexample: changing the body field from absent to the JSON
value `null` does not change the fingerprint — both serialize to the text
`null`. -/
theorem C5_null_body_fingerprint_collision :
    generate_cache_key exReq = generate_cache_key exReqNullBody ∧
    exReq.body ≠ exReqNullBody.body := by
  constructor
  · simp [generate_cache_key, exReq, exReqNullBody, serOptBodyChars,
      serOptHeadersChars, serJson_null]
    rfl
  · decide

/-- C5 amended: the fingerprint is a pure function of
`(method, url, headers, body)` — in particular it ignores `use_cache` and
depends on no other state — and changing exactly one of the four fields
changes the fingerprint, except that a body of JSON `null` and an absent
body collide (both serialize to `null`). -/
theorem C5_amended_fingerprint_determinism_and_sensitivity :
    (∀ r1 r2 : ProxyRequest, r1.method = r2.method → r1.url = r2.url →
      r1.headers = r2.headers → r1.body = r2.body →
      generate_cache_key r1 = generate_cache_key r2) ∧
    (∀ r1 r2 : ProxyRequest, r1.url = r2.url → r1.headers = r2.headers →
      r1.body = r2.body → r1.method ≠ r2.method →
      generate_cache_key r1 ≠ generate_cache_key r2) ∧
    (∀ r1 r2 : ProxyRequest, r1.method = r2.method → r1.headers = r2.headers →
      r1.body = r2.body → r1.url ≠ r2.url →
      generate_cache_key r1 ≠ generate_cache_key r2) ∧
    (∀ r1 r2 : ProxyRequest, r1.method = r2.method → r1.url = r2.url →
      r1.body = r2.body → r1.headers ≠ r2.headers →
      generate_cache_key r1 ≠ generate_cache_key r2) ∧
    (∀ r1 r2 : ProxyRequest, r1.method = r2.method → r1.url = r2.url →
      r1.headers = r2.headers → r1.body ≠ r2.body →
      ¬(bodyNullLike r1.body ∧ bodyNullLike r2.body) →
      generate_cache_key r1 ≠ generate_cache_key r2) :=
  ⟨fun _ _ hm hu hh hb => generate_cache_key_congr hm hu hh hb,
   fun _ _ hu hh hb hm => generate_cache_key_method_ne hu hh hb hm,
   fun _ _ hm hh hb hu => generate_cache_key_url_ne hm hh hb hu,
   fun _ _ hm hu hb hh => generate_cache_key_headers_ne hm hu hb hh,
   fun _ _ hm hu hh hb hnl => generate_cache_key_body_ne hm hu hh hb hnl⟩

/-- The same request as `exReq` issued as a `POST`. -/
def exReqPost : ProxyRequest :=
  { url := "http://x/a", method := "POST", headers := none, body := none,
    use_cache := true }

theorem C5_amended_fingerprint_determinism_and_sensitivity_witness :
    exReq.url = exReqPost.url ∧ exReq.headers = exReqPost.headers ∧
    exReq.body = exReqPost.body ∧ exReq.method ≠ exReqPost.method ∧
    generate_cache_key exReq ≠ generate_cache_key exReqPost :=
  ⟨rfl, rfl, rfl, by decide,
    C5_amended_fingerprint_determinism_and_sensitivity.2.1 exReq exReqPost
      rfl rfl rfl (by decide)⟩

/-- One qualifying call as a trace step. -/
def exStep : Step := .call exReq exEnv200

theorem C6_cache_entries_only_cacheable_get_2xx_witness :
    (generate_cache_key exReq, exResp1) ∈ runTrace [exStep] ∧
    cacheEntryOk (generate_cache_key exReq, exResp1) :=
  ⟨by decide,
    C6_cache_entries_only_cacheable_get_2xx [exStep] _ (by decide)⟩

/-- An upstream response whose body fails to decode as JSON. -/
def exEnvDecodeFail : CallEnv :=
  { behavior := .responds 5 200 [("h", "v")] none, hitElapsedMs := 0,
    nowString := "t7", headerValid := fun _ _ => true }

theorem C7_decode_failure_recovered_with_null_body_witness :
    ¬ cacheHitTaken exReq [] ∧
    methodFromString exReq.method = some HttpMethod.GET ∧
    (proxy exReq [] exEnvDecodeFail).result = .ok
      { status := 200, headers := [("h", "v")], body := Json.null,
        cached := false, timestamp := "t7", duration_ms := 5 } :=
  ⟨by decide, by decide,
    C7_decode_failure_recovered_with_null_body exReq [] exEnvDecodeFail .GET
      5 200 [("h", "v")] (by decide) (by decide) rfl (by decide)⟩

/-- A relay session that sends one message and receives one echo. -/
def exWsReq : WebSocketRequest :=
  { url := "ws://e", messages := ["a"], duration := some 1 }

/-- Environment for `exWsReq`: everything succeeds, one frame arrives at
0 ms. -/
def exWsEnv : WsEnv :=
  { urlValid := true, connectOk := true, sendOk := fun _ => true,
    sentTs := fun _ => "s", incoming := [(0, .msg (some "x"))],
    recvTs := fun _ => "r", totalElapsedMs := 1100 }

theorem C8_sent_entries_precede_received_witness :
    websocket exWsReq exWsEnv = .completed
      [{ direction := "sent", content := "a", timestamp := "s" },
       { direction := "received", content := "x", timestamp := "r" }] 1100 ∧
    (0 : Nat) < 1 :=
  ⟨rfl,
    C8_sent_entries_precede_received exWsReq exWsEnv
      [{ direction := "sent", content := "a", timestamp := "s" },
       { direction := "received", content := "x", timestamp := "r" }] 1100
      rfl 0 1 (by decide) (by decide) (by decide) (by decide)⟩

/-- A relay session with three messages whose second send fails. -/
def exWsReq2 : WebSocketRequest :=
  { url := "ws://e", messages := ["a", "b", "c"], duration := some 1 }

/-- Environment for `exWsReq2`: only send 0 succeeds; nothing arrives. -/
def exWsEnvFail : WsEnv :=
  { urlValid := true, connectOk := true, sendOk := fun i => decide (i < 1),
    sentTs := fun _ => "s", incoming := [], recvTs := fun _ => "r",
    totalElapsedMs := 900 }

theorem C9_send_failure_truncates_and_completes_witness :
    websocket exWsReq2 exWsEnvFail = .completed
      (wsSendPhase 0 exWsReq2.messages exWsEnvFail.sendOk exWsEnvFail.sentTs ++
        wsListenPhase exWsEnvFail.incoming (1000 * exWsReq2.duration.getD 5)
          exWsEnvFail.recvTs)
      exWsEnvFail.totalElapsedMs ∧
    (wsSendPhase 0 exWsReq2.messages exWsEnvFail.sendOk
        exWsEnvFail.sentTs).map (fun e => e.content) =
      exWsReq2.messages.take 1 ∧
    (wsSendPhase 0 exWsReq2.messages exWsEnvFail.sendOk
        exWsEnvFail.sentTs).map (fun e => e.direction) =
      List.replicate 1 "sent" :=
  C9_send_failure_truncates_and_completes exWsReq2 exWsEnvFail 1 (by decide)
    (fun d hd => by simp [exWsEnvFail]; omega) (by decide) rfl rfl

theorem C10_lowercase_get_forwarded_but_never_cached_witness :
    (proxy { exReq with method := "gEt" } exCacheSeeded exEnv200).cacheLookedUp
        = false ∧
    (proxy { exReq with method := "gEt" } exCacheSeeded exEnv200).cacheAfter
        = exCacheSeeded ∧
    (proxy { exReq with method := "gEt" } exCacheSeeded exEnv200).dispatched
        = some HttpMethod.GET :=
  C10_lowercase_get_forwarded_but_never_cached
    { exReq with method := "gEt" } exCacheSeeded exEnv200 (by decide)
    (by decide) rfl

end ApiTester
